import Mathlib

/-!
Verification of the ACP/Agentform compilation pipeline and workflow runtime.

The definitions below are a shallow embedding of the repository's Python
source.  JSON-like runtime data is modelled by `Acp.Value`; Python `dict`s
are modelled as association lists (first occurrence wins on lookup, which
matches unique-keyed dictionaries).  Where a module of the repository is
absent from the source tree (only its tests remain), the corresponding
definition is modelled from the specification and marked as such in its
doc comment.
-/

namespace Acp

/-- JSON-like runtime values flowing through a workflow run:
`None`, booleans, numbers, strings, lists and string-keyed mappings. -/
inductive Value where
  | null : Value
  | bool (b : Bool) : Value
  | num (n : Int) : Value
  | str (s : String) : Value
  | list (xs : List Value) : Value
  | dict (entries : List (String × Value)) : Value

/-- Python `dict` lookup on an association list (keys are unique in the
dictionaries the runtime builds; the first binding wins). -/
def dictGet : List (String × Value) → String → Option Value
  | [], _ => none
  | (k, v) :: rest, key => if k = key then some v else dictGet rest key

/-- Embedding of `acp_runtime.state.WorkflowState`: the `$input` mapping
given at run start and the `$state` mapping accumulated by steps. -/
structure WorkflowState where
  input : List (String × Value)
  state : List (String × Value)

/-- Python `str.split(".")` on the character list of a string: splits at every
dot, keeping empty components (so `"" ↦ [""]`, exactly like Python). -/
def splitDotAux (acc : List Char) : List Char → List String
  | [] => [String.mk acc.reverse]
  | c :: rest =>
    if c = '.' then String.mk acc.reverse :: splitDotAux [] rest
    else splitDotAux (c :: acc) rest

/-- Python `expr.split(".")` for the whole string. -/
def splitDot (s : String) : List String := splitDotAux [] s.data

/-- The `hasattr`/`getattr` fallback of `WorkflowState.resolve` for
non-mapping values, modelled for the attributes of the runtime's JSON
value universe whose values are themselves data: the numeric attributes
of Python ints and bools (`numerator`, `denominator`, `real`, `imag`).
Method and dunder attributes are callables and metaobjects outside the
runtime's data model and are not represented. -/
def getAttr : Value → String → Option Value
  | .num n, "numerator" => some (.num n)
  | .num _, "denominator" => some (.num 1)
  | .num n, "real" => some (.num n)
  | .num _, "imag" => some (.num 0)
  | .bool b, "numerator" => some (.num (if b then 1 else 0))
  | .bool _, "denominator" => some (.num 1)
  | .bool b, "real" => some (.num (if b then 1 else 0))
  | .bool _, "imag" => some (.num 0)
  | _, _ => none

/-- The path-walking loop of `WorkflowState.resolve`: a mapping is
indexed by key, and a missing key raises `KeyError`; any other value
falls back to Python attribute lookup (the `hasattr`/`getattr` branch of
state.py, modelled by `getAttr`), raising `KeyError` when no attribute
applies. -/
def navigate : Value → List String → Except String Value
  | v, [] => .ok v
  | .dict entries, p :: ps =>
    match dictGet entries p with
    | some v => navigate v ps
    | none => .error ("Path " ++ p ++ " not found")
  | v, p :: ps =>
    match getAttr v p with
    | some a => navigate a ps
    | none => .error ("Cannot access " ++ p)

/-- Embedding of `WorkflowState.resolve` (acp_runtime/state.py): a string
not starting with `$` is returned as-is; otherwise the text after `$` is
split on dots, the first component selects the `input` or `state` mapping
(anything else is an unknown root), and the rest is walked as a path. -/
def WorkflowState.resolve (s : WorkflowState) (expr : String) : Except String Value :=
  match expr.data with
  | '$' :: rest =>
    match splitDotAux [] rest with
    | [] => .error ("Invalid expression: " ++ expr)
    | root :: path =>
      if root = "input" then navigate (.dict s.input) path
      else if root = "state" then navigate (.dict s.state) path
      else .error ("Unknown root " ++ root ++ " in expression: " ++ expr)
  | _ => .ok (.str expr)

/-- Specification-side description of "the full dotted path exists in the
nested structure": total lookup through nested mappings only, returning
`none` on any missing component (the notion of path existence the claim
uses). -/
def getPath : Value → List String → Option Value
  | v, [] => some v
  | .dict entries, p :: ps =>
    match dictGet entries p with
    | some v => getPath v ps
    | none => none
  | _, _ :: _ => none

/-- Total lookup matching what the source actually walks: mapping keys,
falling back to the modelled Python attributes on non-mapping values. -/
def getPathData : Value → List String → Option Value
  | v, [] => some v
  | .dict entries, p :: ps =>
    match dictGet entries p with
    | some v => getPathData v ps
    | none => none
  | v, p :: ps =>
    match getAttr v p with
    | some a => getPathData a ps
    | none => none

/-- Embedding of `WorkflowState.to_dict`: the serialized form is a mapping
with the `input` and `state` mappings under those two keys. -/
def WorkflowState.to_dict (s : WorkflowState) : List (String × Value) :=
  [("input", .dict s.input), ("state", .dict s.state)]

/-- The entry list of a mapping value (serialized states always store
mappings under `input`/`state`, so other shapes do not arise). -/
def valueEntries : Value → List (String × Value)
  | .dict entries => entries
  | _ => []

/-- Embedding of `WorkflowState.from_dict`: read `input` and `state` from
the serialized mapping, defaulting each to the empty mapping. -/
def WorkflowState.from_dict (data : List (String × Value)) : WorkflowState :=
  { input := valueEntries ((dictGet data "input").getD (.dict []))
    state := valueEntries ((dictGet data "state").getD (.dict [])) }

theorem navigate_ok_iff_getPathData (v : Value) (path : List String) :
    (∀ w, navigate v path = .ok w ↔ getPathData v path = some w) ∧
      (getPathData v path = none → ∃ msg, navigate v path = .error msg) := by
  induction path generalizing v with
  | nil => simp [navigate, getPathData]
  | cons p ps ih =>
    cases v with
    | dict entries =>
      cases h : dictGet entries p with
      | none => simp [navigate, getPathData, h]
      | some v' => simpa [navigate, getPathData, h] using ih v'
    | null =>
      cases h : getAttr .null p with
      | none => simp [navigate, getPathData, h]
      | some a => simpa [navigate, getPathData, h] using ih a
    | bool b =>
      cases h : getAttr (.bool b) p with
      | none => simp [navigate, getPathData, h]
      | some a => simpa [navigate, getPathData, h] using ih a
    | num n =>
      cases h : getAttr (.num n) p with
      | none => simp [navigate, getPathData, h]
      | some a => simpa [navigate, getPathData, h] using ih a
    | str t =>
      cases h : getAttr (.str t) p with
      | none => simp [navigate, getPathData, h]
      | some a => simpa [navigate, getPathData, h] using ih a
    | list xs =>
      cases h : getAttr (.list xs) p with
      | none => simp [navigate, getPathData, h]
      | some a => simpa [navigate, getPathData, h] using ih a

theorem navigate_missing_key (pre : List String) :
    ∀ (v : Value) (entries : List (String × Value)) (part : String)
      (restp : List String),
      getPathData v pre = some (.dict entries) →
      dictGet entries part = none →
      ∃ msg, navigate v (pre ++ part :: restp) = .error msg := by
  induction pre with
  | nil =>
    intro v entries part restp h1 h2
    simp only [getPathData, Option.some.injEq] at h1
    subst h1
    simp [navigate, h2]
  | cons p pre' ih =>
    intro v entries part restp h1 h2
    cases v with
    | dict es =>
      cases h : dictGet es p with
      | none => simp [getPathData, h] at h1
      | some v' =>
        simp only [getPathData, h] at h1
        simpa [navigate, h] using ih v' entries part restp h1 h2
    | null =>
      cases h : getAttr .null p with
      | none => simp [getPathData, h] at h1
      | some a =>
        simp only [getPathData, h] at h1
        simpa [navigate, h] using ih a entries part restp h1 h2
    | bool b =>
      cases h : getAttr (.bool b) p with
      | none => simp [getPathData, h] at h1
      | some a =>
        simp only [getPathData, h] at h1
        simpa [navigate, h] using ih a entries part restp h1 h2
    | num n =>
      cases h : getAttr (.num n) p with
      | none => simp [getPathData, h] at h1
      | some a =>
        simp only [getPathData, h] at h1
        simpa [navigate, h] using ih a entries part restp h1 h2
    | str t =>
      cases h : getAttr (.str t) p with
      | none => simp [getPathData, h] at h1
      | some a =>
        simp only [getPathData, h] at h1
        simpa [navigate, h] using ih a entries part restp h1 h2
    | list xs =>
      cases h : getAttr (.list xs) p with
      | none => simp [getPathData, h] at h1
      | some a =>
        simp only [getPathData, h] at h1
        simpa [navigate, h] using ih a entries part restp h1 h2

/-- C4 counterexample: the claim as stated is false of the program.
With `input = {count: 5}` the dotted path `count.numerator` is missing
from the nested mapping structure (`5` is not a mapping), yet
`resolve "$input.count.numerator"` returns `5` — the source's
`hasattr`/`getattr` fallback returns the int's `numerator` attribute
instead of raising `KeyError`. -/
theorem resolve_missing_path_counterexample :
    getPath (.dict [("count", .num 5)]) ["count", "numerator"] = none ∧
      WorkflowState.resolve ⟨[("count", .num 5)], []⟩ "$input.count.numerator"
        = .ok (.num 5) :=
  ⟨rfl, rfl⟩

/-- C4 (amended): a state-reference expression whose root is neither
`input` nor `state` fails with a path error; with root `input` or
`state`, resolution returns the value reached by walking the dotted path
(mapping keys, falling back to Python attribute lookup on non-mapping
values) — in particular the stored value whenever the full path exists
in the nested mapping structure — and raises an error, never a default,
whenever a component is looked up on a mapping that lacks that key. -/
theorem resolve_path_semantics_amended (s : WorkflowState) (expr : String)
    (rest : List Char) (root : String) (path : List String)
    (hdata : expr.data = '$' :: rest)
    (hsplit : splitDotAux [] rest = root :: path) :
    (root ≠ "input" → root ≠ "state" → ∃ msg, s.resolve expr = .error msg) ∧
      (root = "input" →
        (∀ v, getPathData (.dict s.input) path = some v →
          s.resolve expr = .ok v) ∧
          (∀ pre part restp entries, path = pre ++ part :: restp →
            getPathData (.dict s.input) pre = some (.dict entries) →
            dictGet entries part = none →
            ∃ msg, s.resolve expr = .error msg)) ∧
      (root = "state" →
        (∀ v, getPathData (.dict s.state) path = some v →
          s.resolve expr = .ok v) ∧
          (∀ pre part restp entries, path = pre ++ part :: restp →
            getPathData (.dict s.state) pre = some (.dict entries) →
            dictGet entries part = none →
            ∃ msg, s.resolve expr = .error msg)) := by
  have hres : s.resolve expr =
      (if root = "input" then navigate (.dict s.input) path
       else if root = "state" then navigate (.dict s.state) path
       else .error ("Unknown root " ++ root ++ " in expression: " ++ expr)) := by
    unfold WorkflowState.resolve
    rw [hdata]
    simp [hsplit]
  refine ⟨?_, ?_, ?_⟩
  · intro h1 h2
    rw [hres]
    simp [h1, h2]
  · intro h
    subst h
    rw [hres, if_pos rfl]
    constructor
    · intro v hv
      exact ((navigate_ok_iff_getPathData _ path).1 v).mpr hv
    · intro pre part restp entries hpath h1 h2
      subst hpath
      exact navigate_missing_key pre _ entries part restp h1 h2
  · intro h
    subst h
    rw [hres, if_neg (by decide : ¬("state" : String) = "input"), if_pos rfl]
    constructor
    · intro v hv
      exact ((navigate_ok_iff_getPathData _ path).1 v).mpr hv
    · intro pre part restp entries hpath h1 h2
      subst hpath
      exact navigate_missing_key pre _ entries part restp h1 h2

/-- Concrete instantiation of `resolve_path_semantics_amended`: with
`input = {a: {b: 1}}`, `$input.a.b` resolves to `1` and `$input.a.c`
fails on the missing mapping key; with `input = {count: 5}`,
`$input.count.numerator` resolves through the int's attribute to `5`;
and `$other.a` fails on the unknown root. -/
theorem resolve_path_semantics_amended_witness :
    (WorkflowState.resolve ⟨[("a", .dict [("b", .num 1)])], []⟩ "$input.a.b"
        = .ok (.num 1)) ∧
      (WorkflowState.resolve ⟨[("count", .num 5)], []⟩ "$input.count.numerator"
        = .ok (.num 5)) ∧
      (∃ msg, WorkflowState.resolve ⟨[("a", .dict [("b", .num 1)])], []⟩
        "$input.a.c" = .error msg) ∧
      (∃ msg, WorkflowState.resolve ⟨[("a", .dict [("b", .num 1)])], []⟩
        "$other.a" = .error msg) := by
  refine ⟨?_, ?_, ?_, ?_⟩
  · exact ((resolve_path_semantics_amended ⟨[("a", .dict [("b", .num 1)])], []⟩
      "$input.a.b" "input.a.b".data "input" ["a", "b"] rfl rfl).2.1 rfl).1
      (.num 1) rfl
  · exact ((resolve_path_semantics_amended ⟨[("count", .num 5)], []⟩
      "$input.count.numerator" "input.count.numerator".data "input"
      ["count", "numerator"] rfl rfl).2.1 rfl).1 (.num 5) rfl
  · exact ((resolve_path_semantics_amended ⟨[("a", .dict [("b", .num 1)])], []⟩
      "$input.a.c" "input.a.c".data "input" ["a", "c"] rfl rfl).2.1 rfl).2
      ["a"] "c" [] [("b", .num 1)] rfl rfl rfl
  · exact (resolve_path_semantics_amended ⟨[("a", .dict [("b", .num 1)])], []⟩
      "$other.a" "other.a".data "other" ["a"] rfl rfl).1
      (by decide) (by decide)

/-- C9: serializing a workflow state with `to_dict` and reading it back
with `from_dict` restores the same input mapping and state mapping. -/
theorem workflow_state_roundtrip (s : WorkflowState) :
    WorkflowState.from_dict s.to_dict = s := by
  cases s
  rfl

/-! ### Condition evaluation over the `{input, state}` environment

Modelled from the spec: the runtime's `evaluate_condition` (the
`agentform_runtime.state` module is absent from the source tree; only its
tests remain).  The spec fixes the expression grammar — ternary lowest
precedence, then `||`, then `&&`, then unary `!`, then comparisons
(`==,!=,<,<=,>,>=`), then primary terms (state references, numbers,
strings, booleans) — short-circuit boolean logic, and string/number/
boolean truthiness coercion (empty string false, non-empty true). -/

/-- Comparison operators of the condition language. -/
inductive CmpOp where
  | eq | ne | lt | le | gt | ge
deriving DecidableEq

/-- Tokens of the condition language. -/
inductive Token where
  | ref (parts : List String)
  | num (n : Int)
  | str (s : String)
  | boolLit (b : Bool)
  | cmp (op : CmpOp)
  | andTok | orTok | notTok
  | lparen | rparen
  | question | colon

/-- Longest identifier (letters, digits, underscore) at the head of the
character stream, with the remaining characters. -/
def takeIdent : List Char → List Char × List Char
  | [] => ([], [])
  | c :: rest =>
    if c.isAlphanum || c = '_' then
      let (i, r) := takeIdent rest
      (c :: i, r)
    else ([], c :: rest)

/-- Longest digit run at the head of the character stream. -/
def takeDigits : List Char → List Char × List Char
  | [] => ([], [])
  | c :: rest =>
    if c.isDigit then
      let (d, r) := takeDigits rest
      (c :: d, r)
    else ([], c :: rest)

/-- Numeric value of a digit run. -/
def digitsVal : List Char → Nat → Nat
  | [], acc => acc
  | c :: rest, acc => digitsVal rest (acc * 10 + (c.toNat - '0'.toNat))

/-- Dotted identifier path (`input.count`, `state.result.code`) after a
`$`, with the remaining characters. -/
def takeDotted : Nat → List Char → List String × List Char
  | 0, cs => ([], cs)
  | fuel + 1, cs =>
    let (ident, rest) := takeIdent cs
    match rest with
    | '.' :: rest' =>
      let (more, rest'') := takeDotted fuel rest'
      (String.mk ident :: more, rest'')
    | _ => ([String.mk ident], rest)

/-- Body of a quoted string up to the closing quote (`none` if the string
is unterminated). -/
def takeQuoted : List Char → Option (List Char × List Char)
  | [] => none
  | c :: rest =>
    if c = '"' then some ([], rest)
    else
      match takeQuoted rest with
      | some (body, r) => some (c :: body, r)
      | none => none

/-- Tokenizer for condition strings (fuel-indexed; the fuel is an upper
bound on the number of steps, one or more characters are consumed per
step). -/
def tokenizeAux : Nat → List Char → Except String (List Token)
  | 0, _ => .error "tokenizer: out of fuel"
  | _ + 1, [] => .ok []
  | fuel + 1, '&' :: '&' :: cs => (Token.andTok :: ·) <$> tokenizeAux fuel cs
  | fuel + 1, '|' :: '|' :: cs => (Token.orTok :: ·) <$> tokenizeAux fuel cs
  | fuel + 1, '=' :: '=' :: cs => (Token.cmp .eq :: ·) <$> tokenizeAux fuel cs
  | fuel + 1, '!' :: '=' :: cs => (Token.cmp .ne :: ·) <$> tokenizeAux fuel cs
  | fuel + 1, '<' :: '=' :: cs => (Token.cmp .le :: ·) <$> tokenizeAux fuel cs
  | fuel + 1, '>' :: '=' :: cs => (Token.cmp .ge :: ·) <$> tokenizeAux fuel cs
  | fuel + 1, '<' :: cs => (Token.cmp .lt :: ·) <$> tokenizeAux fuel cs
  | fuel + 1, '>' :: cs => (Token.cmp .gt :: ·) <$> tokenizeAux fuel cs
  | fuel + 1, '!' :: cs => (Token.notTok :: ·) <$> tokenizeAux fuel cs
  | fuel + 1, '(' :: cs => (Token.lparen :: ·) <$> tokenizeAux fuel cs
  | fuel + 1, ')' :: cs => (Token.rparen :: ·) <$> tokenizeAux fuel cs
  | fuel + 1, '?' :: cs => (Token.question :: ·) <$> tokenizeAux fuel cs
  | fuel + 1, ':' :: cs => (Token.colon :: ·) <$> tokenizeAux fuel cs
  | fuel + 1, '$' :: cs =>
    let (parts, rest) := takeDotted (cs.length + 1) cs
    (Token.ref parts :: ·) <$> tokenizeAux fuel rest
  | fuel + 1, '"' :: cs =>
    match takeQuoted cs with
    | some (body, rest) => (Token.str (String.mk body) :: ·) <$> tokenizeAux fuel rest
    | none => .error "tokenizer: unterminated string"
  | fuel + 1, c :: cs =>
    if c = ' ' || c = '\t' || c = '\n' then tokenizeAux fuel cs
    else if c.isDigit then
      let (digits, rest) := takeDigits (c :: cs)
      (Token.num (Int.ofNat (digitsVal digits 0)) :: ·) <$> tokenizeAux fuel rest
    else if c.isAlpha then
      let (ident, rest) := takeIdent (c :: cs)
      match String.mk ident with
      | "true" => (Token.boolLit true :: ·) <$> tokenizeAux fuel rest
      | "false" => (Token.boolLit false :: ·) <$> tokenizeAux fuel rest
      | w => .error ("tokenizer: unexpected word " ++ w)
    else .error "tokenizer: unexpected character"

/-- Expressions of the condition language. -/
inductive CondExpr where
  | lit (v : Value)
  | sref (parts : List String)
  | notE (e : CondExpr)
  | andE (a b : CondExpr)
  | orE (a b : CondExpr)
  | cmpE (op : CmpOp) (a b : CondExpr)
  | condE (c t f : CondExpr)

mutual

/-- Ternary conditional: lowest precedence level. -/
def parseTernary : Nat → List Token → Except String (CondExpr × List Token)
  | 0, _ => .error "out of fuel"
  | fuel + 1, toks => do
    let (c, rest) ← parseOr fuel toks
    match rest with
    | .question :: rest' => do
      let (t, rest'') ← parseTernary fuel rest'
      match rest'' with
      | .colon :: rest3 => do
        let (f, rest4) ← parseTernary fuel rest3
        .ok (.condE c t f, rest4)
      | _ => .error "expected colon in ternary"
    | _ => .ok (c, rest)

/-- Disjunction (`||`) level, left-associative. -/
def parseOr : Nat → List Token → Except String (CondExpr × List Token)
  | 0, _ => .error "out of fuel"
  | fuel + 1, toks => do
    let (a, rest) ← parseAnd fuel toks
    parseOrRest fuel a rest

/-- Remaining `|| operand` repetitions. -/
def parseOrRest : Nat → CondExpr → List Token → Except String (CondExpr × List Token)
  | 0, _, _ => .error "out of fuel"
  | fuel + 1, acc, toks =>
    match toks with
    | .orTok :: rest => do
      let (b, rest') ← parseAnd fuel rest
      parseOrRest fuel (.orE acc b) rest'
    | _ => .ok (acc, toks)

/-- Conjunction (`&&`) level, left-associative. -/
def parseAnd : Nat → List Token → Except String (CondExpr × List Token)
  | 0, _ => .error "out of fuel"
  | fuel + 1, toks => do
    let (a, rest) ← parseUnary fuel toks
    parseAndRest fuel a rest

/-- Remaining `&& operand` repetitions. -/
def parseAndRest : Nat → CondExpr → List Token → Except String (CondExpr × List Token)
  | 0, _, _ => .error "out of fuel"
  | fuel + 1, acc, toks =>
    match toks with
    | .andTok :: rest => do
      let (b, rest') ← parseUnary fuel rest
      parseAndRest fuel (.andE acc b) rest'
    | _ => .ok (acc, toks)

/-- Unary `!` level. -/
def parseUnary : Nat → List Token → Except String (CondExpr × List Token)
  | 0, _ => .error "out of fuel"
  | fuel + 1, toks =>
    match toks with
    | .notTok :: rest => do
      let (e, r) ← parseUnary fuel rest
      .ok (.notE e, r)
    | _ => parseCmp fuel toks

/-- Comparison level: a primary optionally followed by one comparison. -/
def parseCmp : Nat → List Token → Except String (CondExpr × List Token)
  | 0, _ => .error "out of fuel"
  | fuel + 1, toks => do
    let (a, rest) ← parsePrimary fuel toks
    match rest with
    | .cmp op :: rest' => do
      let (b, rest'') ← parsePrimary fuel rest'
      .ok (.cmpE op a b, rest'')
    | _ => .ok (a, rest)

/-- Primary terms: state references, literals, parenthesized expressions. -/
def parsePrimary : Nat → List Token → Except String (CondExpr × List Token)
  | 0, _ => .error "out of fuel"
  | fuel + 1, toks =>
    match toks with
    | .ref parts :: rest => .ok (.sref parts, rest)
    | .num n :: rest => .ok (.lit (.num n), rest)
    | .str s :: rest => .ok (.lit (.str s), rest)
    | .boolLit b :: rest => .ok (.lit (.bool b), rest)
    | .lparen :: rest => do
      let (e, r) ← parseTernary fuel rest
      match r with
      | .rparen :: r' => .ok (e, r')
      | _ => .error "expected closing paren"
    | _ => .error "unexpected token in primary"

end

/-- Truthiness coercion from the spec: empty string false, non-empty
true; a boolean is its own truth value; null is false; zero is false. -/
def truthy : Value → Bool
  | .null => false
  | .bool b => b
  | .num n => n != 0
  | .str s => s != ""
  | .list xs => !xs.isEmpty
  | .dict es => !es.isEmpty

/-- Scalar equality used by `==`/`!=` (the condition algebra compares
scalar results). -/
def valueEqScalar : Value → Value → Bool
  | .null, .null => true
  | .bool a, .bool b => a == b
  | .num a, .num b => a == b
  | .str a, .str b => a == b
  | _, _ => false

/-- Apply a comparison operator; ordering comparisons require numbers. -/
def applyCmp (op : CmpOp) (a b : Value) : Except String Value :=
  match op with
  | .eq => .ok (.bool (valueEqScalar a b))
  | .ne => .ok (.bool (!valueEqScalar a b))
  | _ =>
    match a, b with
    | .num x, .num y =>
      match op with
      | .lt => .ok (.bool (decide (x < y)))
      | .le => .ok (.bool (decide (x ≤ y)))
      | .gt => .ok (.bool (decide (x > y)))
      | .ge => .ok (.bool (decide (x ≥ y)))
      | _ => .error "unreachable comparison"
    | _, _ => .error "ordering comparison requires numbers"

/-- Resolve a dotted state-reference path against the `{input, state}`
environment (the same navigation `WorkflowState.resolve` performs). -/
def resolveParts (s : WorkflowState) : List String → Except String Value
  | [] => .error "empty reference"
  | root :: path =>
    if root = "input" then navigate (.dict s.input) path
    else if root = "state" then navigate (.dict s.state) path
    else .error ("Unknown root " ++ root)

/-- Evaluate a condition expression with short-circuit `&&`/`||`. -/
def evalCond (s : WorkflowState) : CondExpr → Except String Value
  | .lit v => .ok v
  | .sref parts => resolveParts s parts
  | .notE e => do
    let v ← evalCond s e
    .ok (.bool (!truthy v))
  | .andE a b => do
    let va ← evalCond s a
    if truthy va then do
      let vb ← evalCond s b
      .ok (.bool (truthy vb))
    else .ok (.bool false)
  | .orE a b => do
    let va ← evalCond s a
    if truthy va then .ok (.bool true)
    else do
      let vb ← evalCond s b
      .ok (.bool (truthy vb))
  | .cmpE op a b => do
    let va ← evalCond s a
    let vb ← evalCond s b
    applyCmp op va vb
  | .condE c t f => do
    let vc ← evalCond s c
    if truthy vc then evalCond s t else evalCond s f

/-- Modelled from the spec: `WorkflowState.evaluate_condition` — tokenize
the condition string, parse it with the spec's precedence, evaluate it
against `{input, state}`, and coerce the result to a boolean. -/
def WorkflowState.evaluate_condition (s : WorkflowState) (cond : String) :
    Except String Bool := do
  let toks ← tokenizeAux (cond.data.length + 1) cond.data
  let (e, rest) ← parseTernary (10 * (toks.length + 1)) toks
  match rest with
  | [] => do
    let v ← evalCond s e
    .ok (truthy v)
  | _ => .error "unexpected trailing tokens"

/-- C2: the boundary table of the spec — with `input = {count: 5}`,
`$input.count > 5` is false and `$input.count >= 5` is true; with
`input = {a: true, b: false}`, `$input.a && $input.b` is false,
`$input.a || $input.b` is true, and `!$input.b` is true. -/
theorem evaluate_condition_boundary_table :
    (WorkflowState.evaluate_condition ⟨[("count", .num 5)], []⟩
        "$input.count > 5" = .ok false) ∧
      (WorkflowState.evaluate_condition ⟨[("count", .num 5)], []⟩
        "$input.count >= 5" = .ok true) ∧
      (WorkflowState.evaluate_condition ⟨[("a", .bool true), ("b", .bool false)], []⟩
        "$input.a && $input.b" = .ok false) ∧
      (WorkflowState.evaluate_condition ⟨[("a", .bool true), ("b", .bool false)], []⟩
        "$input.a || $input.b" = .ok true) ∧
      (WorkflowState.evaluate_condition ⟨[("a", .bool true), ("b", .bool false)], []⟩
        "!$input.b" = .ok true) := by
  refine ⟨rfl, rfl, rfl, rfl, rfl⟩

/-! ### Validation results and the compile entry point -/

/-- A single quote character, used when assembling diagnostic messages. -/
def squote : String := String.singleton (Char.ofNat 39)

/-- A fatal validation finding (path into the offending block, message). -/
structure ValidationError where
  path : String
  message : String
deriving DecidableEq

/-- An advisory validation finding; never blocks compilation. -/
structure ValidationWarning where
  path : String
  message : String
deriving DecidableEq

/-- Result of a validation run.  Modelled from the spec: the
`acp_compiler.validator` module is absent from the source tree; per the
spec, `isValid` is true iff `errors` is empty. -/
structure ValidationResult where
  errors : List ValidationError
  warnings : List ValidationWarning
deriving DecidableEq

/-- Validity per the spec: `is_valid` is emptiness of the error list. -/
def ValidationResult.is_valid (r : ValidationResult) : Bool :=
  r.errors.isEmpty

/-- Embedding of `acp_compiler.compiler.CompilationError`. -/
structure CompilationError where
  message : String
  validation_result : Option ValidationResult

/-- Embedding of `acp_compiler.compiler.compile_spec`: parse, validate,
and generate IR; a parse failure or an invalid validation result aborts
with a `CompilationError`.  The parser, validator and IR generator it
calls are passed in as functions (their modules are collaborators of
`compiler.py`). -/
def compile_spec {σ ι : Type} (parseResult : Except String σ)
    (validateFn : σ → ValidationResult) (generateFn : σ → ι) :
    Except CompilationError ι :=
  match parseResult with
  | .error e => .error ⟨"Parse error: " ++ e, none⟩
  | .ok spec =>
    let result := validateFn spec
    if result.is_valid then .ok (generateFn spec)
    else .error ⟨"Validation failed", some result⟩

/-- C3: a validation result is valid exactly when its error list is
empty; the warning list never affects validity; and, on a parsed spec,
the compile entry point succeeds when validation reports no errors and
fails with a `CompilationError` when it reports any error. -/
theorem validation_validity_and_compile {σ ι : Type} (r : ValidationResult)
    (spec : σ) (validateFn : σ → ValidationResult) (generateFn : σ → ι) :
    (r.is_valid = true ↔ r.errors = []) ∧
      (∀ w, (ValidationResult.mk r.errors w).is_valid = r.is_valid) ∧
      ((validateFn spec).errors = [] →
        compile_spec (.ok spec) validateFn generateFn = .ok (generateFn spec)) ∧
      ((validateFn spec).errors ≠ [] →
        ∃ e, compile_spec (.ok spec) validateFn generateFn = .error e ∧
          e.validation_result = some (validateFn spec)) := by
  refine ⟨?_, ?_, ?_, ?_⟩
  · simp [ValidationResult.is_valid, List.isEmpty_iff]
  · intro w
    rfl
  · intro h
    simp [compile_spec, ValidationResult.is_valid, h]
  · intro h
    refine ⟨⟨"Validation failed", some (validateFn spec)⟩, ?_, rfl⟩
    simp [compile_spec, ValidationResult.is_valid, h]

/-- Concrete instantiation of `validation_validity_and_compile`: a result
carrying only a "no default value" warning is valid and compiles, while a
result carrying an error fails compilation. -/
theorem validation_validity_and_compile_witness :
    (ValidationResult.mk []
        [⟨"acp.variables.test", "Variable test has no default value"⟩]).is_valid
        = true ∧
      @compile_spec Unit Unit (.ok ())
        (fun _ => ⟨[], [⟨"acp.variables.test", "no default value"⟩]⟩)
        (fun _ => ()) = .ok () ∧
      ∃ e, @compile_spec Unit Unit (.ok ())
        (fun _ => ⟨[⟨"providers.llm.openai.api_key", "missing"⟩], []⟩)
        (fun _ => ()) = .error e ∧
        e.validation_result = some ⟨[⟨"providers.llm.openai.api_key", "missing"⟩], []⟩ :=
  ⟨(validation_validity_and_compile
      (ValidationResult.mk []
        [⟨"acp.variables.test", "Variable test has no default value"⟩])
      () (fun _ => ⟨[], []⟩) (fun _ => ())).1.mpr rfl,
    (validation_validity_and_compile (ValidationResult.mk [] []) ()
      (fun _ => ⟨[], [⟨"acp.variables.test", "no default value"⟩]⟩)
      (fun _ => ())).2.2.1 rfl,
    (validation_validity_and_compile (ValidationResult.mk [] []) ()
      (fun _ => ⟨[⟨"providers.llm.openai.api_key", "missing"⟩], []⟩)
      (fun _ => ())).2.2.2 (List.cons_ne_nil _ _)⟩

/-! ### IR generation: agent / provider parameter merging

From `agentform_compiler/ir_generator.py` (present in the source tree):
agents inherit the resolved provider's default parameters and override
them field-by-field where the agent's own value is set. -/

/-- Embedding of `agentform_schema.models.LLMProviderParams`: each field
independently optional. -/
structure LLMProviderParams where
  temperature : Option ℚ := none
  max_tokens : Option Nat := none
  top_p : Option ℚ := none
deriving DecidableEq

/-- The slice of `agentform_schema.ir.ResolvedProvider` that parameter
merging reads. -/
structure ResolvedProvider where
  name : String
  provider_type : String
  default_params : LLMProviderParams

/-- The slice of `agentform_schema.models.AgentConfig` that parameter
merging reads. -/
structure AgentSpecConfig where
  name : String
  provider : String
  params : Option LLMProviderParams

/-- Embedding of `agentform_compiler.ir_generator.IRGenerationError`. -/
structure IRGenerationError where
  message : String

/-- Lookup in the resolved-provider dictionary. -/
def lookupProvider : List (String × ResolvedProvider) → String → Option ResolvedProvider
  | [], _ => none
  | (k, v) :: rest, key => if k = key then some v else lookupProvider rest key

/-- The `model_fields` override loop of `generate_ir`: starting from a
copy of the provider defaults, set each field whose agent value is not
`None`. -/
def applyParamOverrides (base o : LLMProviderParams) : LLMProviderParams :=
  let m1 := match o.temperature with
    | some v => { base with temperature := some v }
    | none => base
  let m2 := match o.max_tokens with
    | some v => { m1 with max_tokens := some v }
    | none => m1
  match o.top_p with
  | some v => { m2 with top_p := some v }
  | none => m2

/-- The agent-resolution slice of `generate_ir`: look up the agent's
provider (absence is a fatal generation error), then merge the agent's
parameter overrides onto the provider's default parameters. -/
def resolveAgentParams (providers : List (String × ResolvedProvider))
    (agent : AgentSpecConfig) : Except IRGenerationError LLMProviderParams :=
  match lookupProvider providers agent.provider with
  | none =>
    .error ⟨"Provider " ++ squote ++ agent.provider ++ squote ++
      " not found for agent " ++ squote ++ agent.name ++ squote⟩
  | some rp =>
    match agent.params with
    | none => .ok rp.default_params
    | some o => .ok (applyParamOverrides rp.default_params o)

/-- Follows the spec's words: "for each parameter field, the compiled
agent's value equals the agent's explicitly set value when that value is
not null, and otherwise equals the provider's default for that field". -/
def specFieldMerge {α : Type} (agentVal providerVal : Option α) : Option α :=
  match agentVal with
  | some v => some v
  | none => providerVal

/-- Spec-side field-by-field merge of a whole parameter record. -/
def specMergeParams (agentParams : Option LLMProviderParams)
    (base : LLMProviderParams) : LLMProviderParams :=
  { temperature := specFieldMerge (agentParams.bind LLMProviderParams.temperature) base.temperature
    max_tokens := specFieldMerge (agentParams.bind LLMProviderParams.max_tokens) base.max_tokens
    top_p := specFieldMerge (agentParams.bind LLMProviderParams.top_p) base.top_p }

/-- C8: when the agent's provider is present in the resolved provider
set, IR generation produces exactly the spec's field-by-field merge: each
field takes the agent's explicitly set value and otherwise the provider's
default (so an agent with no overrides inherits every default, and
overriding one field leaves the others inherited). -/
theorem agent_params_merge (providers : List (String × ResolvedProvider))
    (agent : AgentSpecConfig) (rp : ResolvedProvider)
    (hrp : lookupProvider providers agent.provider = some rp) :
    resolveAgentParams providers agent =
      .ok (specMergeParams agent.params rp.default_params) := by
  obtain ⟨rpn, rpt, bt, bmt, btp⟩ := rp
  unfold resolveAgentParams
  rw [hrp]
  cases hp : agent.params with
  | none => rfl
  | some o =>
    obtain ⟨t, mt, tp⟩ := o
    cases t <;> cases mt <;> cases tp <;> rfl

/-- Concrete instantiation of `agent_params_merge`: the agent overrides
`temperature`, inherits the provider's `max_tokens`, and the unset
`top_p` stays unset. -/
theorem agent_params_merge_witness :
    resolveAgentParams
        [("openai", ⟨"openai", "openai", ⟨some 1, some 1000, none⟩⟩)]
        ⟨"assistant", "openai", some ⟨some 2, none, none⟩⟩ =
      .ok ⟨some 2, some 1000, none⟩ :=
  agent_params_merge
    [("openai", ⟨"openai", "openai", ⟨some 1, some 1000, none⟩⟩)]
    ⟨"assistant", "openai", some ⟨some 2, none, none⟩⟩
    ⟨"openai", "openai", ⟨some 1, some 1000, none⟩⟩ rfl

/-! ### Runtime policy enforcement

Modelled from the spec: the `agentform_runtime.policy` module is absent
from the source tree (only its tests remain).  Per the spec, a policy
carries independently optional budget ceilings (cost per run, capability
call count, wall-clock seconds); the enforcer keeps one mutable context
per run id counting calls, accumulated cost and start time; budget checks
raise a `PolicyViolation` naming the policy and the exceeded budget
dimension, and costs are modelled as exact rationals. -/

/-- Budget ceilings, each independently optional (absent = unlimited). -/
structure BudgetConfig where
  max_cost_usd_per_run : Option ℚ := none
  max_capability_calls : Option Nat := none
  timeout_seconds : Option ℚ := none
deriving DecidableEq

/-- A named policy with its budgets. -/
structure ResolvedPolicy where
  name : String
  budgets : BudgetConfig
deriving DecidableEq

/-- Per-run counters: capability calls made, accumulated cost, run start
time. -/
structure PolicyContext where
  capability_calls : Nat := 0
  total_cost_usd : ℚ := 0
  start_time : ℚ := 0
deriving DecidableEq

/-- The distinguished budget-violation error: which policy, which budget
dimension, and a human-readable message. -/
structure PolicyViolation where
  policy_name : String
  constraint : String
  message : String
deriving DecidableEq

/-- The enforcer: the compiled policy set and the live run contexts. -/
structure PolicyEnforcer where
  policies : List (String × ResolvedPolicy)
  contexts : List (String × PolicyContext)

/-- Python `dict` lookup on an association list. -/
def assocGet {α : Type} : List (String × α) → String → Option α
  | [], _ => none
  | (k, v) :: rest, key => if k = key then some v else assocGet rest key

/-- Python `dict` assignment on an association list. -/
def assocSet {α : Type} : List (String × α) → String → α → List (String × α)
  | [], key, v => [(key, v)]
  | (k, w) :: rest, key, v =>
    if k = key then (k, v) :: rest else (k, w) :: assocSet rest key v

/-- Embedding of `PolicyEnforcer.get_context`. -/
def PolicyEnforcer.get_context (e : PolicyEnforcer) (ctxId : String) :
    Option PolicyContext :=
  assocGet e.contexts ctxId

/-- Embedding of `PolicyEnforcer.start_context`: install a fresh context for a run id. -/
def PolicyEnforcer.start_context (e : PolicyEnforcer) (ctxId : String) :
    PolicyEnforcer :=
  { e with contexts := assocSet e.contexts ctxId {} }

/-- Embedding of `PolicyEnforcer.check_before_capability_call`: silently permit when
the run has no started context, no policy is named, or the named policy
is unknown or has no call ceiling; otherwise raise a
`max_capability_calls` violation once the recorded call count has reached
the ceiling. -/
def PolicyEnforcer.check_before_capability_call (e : PolicyEnforcer)
    (ctxId : String) (policyName : Option String) :
    Except PolicyViolation Unit :=
  match assocGet e.contexts ctxId with
  | none => .ok ()
  | some ctx =>
    match policyName with
    | none => .ok ()
    | some pname =>
      match assocGet e.policies pname with
      | none => .ok ()
      | some policy =>
        match policy.budgets.max_capability_calls with
        | none => .ok ()
        | some limit =>
          if limit ≤ ctx.capability_calls then
            .error ⟨pname, "max_capability_calls",
              "Capability call limit of " ++ toString limit ++ " reached"⟩
          else .ok ()

/-- Embedding of `PolicyEnforcer.record_capability_call`: count a call against an
existing context (no-op when the context is missing). -/
def PolicyEnforcer.record_capability_call (e : PolicyEnforcer)
    (ctxId : String) : PolicyEnforcer :=
  match assocGet e.contexts ctxId with
  | none => e
  | some ctx =>
    let ctx' := { ctx with capability_calls := ctx.capability_calls + 1 }
    { e with contexts := assocSet e.contexts ctxId ctx' }

/-- Embedding of `PolicyEnforcer.check_cost`: record the cost against an existing
context, then raise a `max_cost_usd_per_run` violation when the new
cumulative cost exceeds the named policy's ceiling; with no context, no
policy, an unknown policy or no ceiling the call is permitted. -/
def PolicyEnforcer.check_cost (e : PolicyEnforcer) (ctxId : String)
    (policyName : Option String) (cost : ℚ) :
    PolicyEnforcer × Except PolicyViolation Unit :=
  match assocGet e.contexts ctxId with
  | none => (e, .ok ())
  | some ctx =>
    let newTotal := ctx.total_cost_usd + cost
    let ctx' := { ctx with total_cost_usd := newTotal }
    let e' := { e with contexts := assocSet e.contexts ctxId ctx' }
    match policyName with
    | none => (e', .ok ())
    | some pname =>
      match assocGet e.policies pname with
      | none => (e', .ok ())
      | some policy =>
        match policy.budgets.max_cost_usd_per_run with
        | none => (e', .ok ())
        | some budget =>
          if budget < newTotal then
            (e', .error ⟨pname, "max_cost_usd_per_run", "Cost budget exceeded"⟩)
          else (e', .ok ())

/-- Embedding of `PolicyEnforcer.check_timeout`: raise a `timeout_seconds` violation
when the elapsed wall-clock time exceeds the ceiling; permitted with no
context, no policy, an unknown policy or no ceiling. -/
def PolicyEnforcer.check_timeout (e : PolicyEnforcer) (ctxId : String)
    (policyName : Option String) (now : ℚ) : Except PolicyViolation Unit :=
  match assocGet e.contexts ctxId with
  | none => .ok ()
  | some ctx =>
    match policyName with
    | none => .ok ()
    | some pname =>
      match assocGet e.policies pname with
      | none => .ok ()
      | some policy =>
        match policy.budgets.timeout_seconds with
        | none => .ok ()
        | some limit =>
          if limit < now - ctx.start_time then
            .error ⟨pname, "timeout_seconds", "Timed out"⟩
          else .ok ()

theorem assocGet_assocSet {α : Type} (l : List (String × α)) (key : String)
    (v : α) : assocGet (assocSet l key v) key = some v := by
  induction l with
  | nil => simp [assocGet, assocSet]
  | cons p rest ih =>
    obtain ⟨k, w⟩ := p
    by_cases h : k = key
    · simp [assocGet, assocSet, h]
    · simp [assocGet, assocSet, h, ih]

/-- An enforcer holding one policy `p` with call ceiling `K` and cost
ceiling `budget`, and one context `ctx` with `n` recorded calls and
`total` accumulated cost. -/
def singleBudgetEnforcer (K : Nat) (budget : ℚ) (n : Nat) (total : ℚ) :
    PolicyEnforcer :=
  { policies :=
      [("p", ⟨"p", { max_cost_usd_per_run := some budget
                     max_capability_calls := some K }⟩)]
    contexts := [("ctx", ⟨n, total, 0⟩)] }

/-- C1: with call ceiling `K`, the pre-call check passes while the
recorded count is strictly below `K` and raises a
`max_capability_calls` violation from the `K`-th recorded call on; costs
accumulate additively in the context, and the cost check raises a
`max_cost_usd_per_run` violation exactly when the cumulative cost would
exceed the ceiling. -/
theorem policy_budget_monotonicity (K n : Nat) (budget total cost : ℚ) :
    (n < K → (singleBudgetEnforcer K budget n total).check_before_capability_call
        "ctx" (some "p") = .ok ()) ∧
      (K ≤ n → ∃ v,
        (singleBudgetEnforcer K budget n total).check_before_capability_call
          "ctx" (some "p") = .error v ∧ v.constraint = "max_capability_calls") ∧
      (((singleBudgetEnforcer K budget n total).check_cost "ctx" (some "p")
          cost).1.get_context "ctx" = some ⟨n, total + cost, 0⟩) ∧
      (budget < total + cost → ∃ v,
        ((singleBudgetEnforcer K budget n total).check_cost "ctx" (some "p")
          cost).2 = .error v ∧ v.constraint = "max_cost_usd_per_run") ∧
      (total + cost ≤ budget →
        ((singleBudgetEnforcer K budget n total).check_cost "ctx" (some "p")
          cost).2 = .ok ()) := by
  refine ⟨?_, ?_, ?_, ?_, ?_⟩
  · intro h
    simp [singleBudgetEnforcer, PolicyEnforcer.check_before_capability_call,
      assocGet, Nat.not_le.mpr h]
  · intro h
    refine ⟨⟨"p", "max_capability_calls",
      "Capability call limit of " ++ toString K ++ " reached"⟩, ?_, rfl⟩
    simp [singleBudgetEnforcer, PolicyEnforcer.check_before_capability_call,
      assocGet, h]
  · unfold singleBudgetEnforcer PolicyEnforcer.check_cost
      PolicyEnforcer.get_context
    rcases lt_or_le budget (total + cost) with h | h
    · simp [assocGet, assocSet, h]
    · simp [assocGet, assocSet, not_lt.mpr h]
  · intro h
    refine ⟨⟨"p", "max_cost_usd_per_run", "Cost budget exceeded"⟩, ?_, rfl⟩
    simp [singleBudgetEnforcer, PolicyEnforcer.check_cost, assocGet, h]
  · intro h
    simp [singleBudgetEnforcer, PolicyEnforcer.check_cost, assocGet,
      not_lt.mpr h]

/-- Concrete instantiation of `policy_budget_monotonicity` with
`K = 10`, cost ceiling `1`: nine recorded calls pass, ten raise the
`max_capability_calls` violation; a cost of `2` on an empty total is
recorded and raises the `max_cost_usd_per_run` violation. -/
theorem policy_budget_monotonicity_witness :
    ((singleBudgetEnforcer 10 1 9 0).check_before_capability_call
        "ctx" (some "p") = .ok ()) ∧
      (∃ v, (singleBudgetEnforcer 10 1 10 0).check_before_capability_call
        "ctx" (some "p") = .error v ∧ v.constraint = "max_capability_calls") ∧
      (((singleBudgetEnforcer 10 1 0 0).check_cost "ctx" (some "p")
          2).1.get_context "ctx" = some ⟨0, 0 + 2, 0⟩) ∧
      (∃ v, ((singleBudgetEnforcer 10 1 0 0).check_cost "ctx" (some "p")
        2).2 = .error v ∧ v.constraint = "max_cost_usd_per_run") :=
  ⟨(policy_budget_monotonicity 10 9 1 0 0).1 (by decide),
    (policy_budget_monotonicity 10 10 1 0 0).2.1 (by decide),
    (policy_budget_monotonicity 10 0 1 0 2).2.2.1,
    (policy_budget_monotonicity 10 0 1 0 2).2.2.2.1
      (by rw [zero_add]; exact one_lt_two)⟩

/-- C10: the budget checks never raise without a named policy, with a
policy name absent from the enforcer's policy set, or for a run id with
no started context; and the cost check still records the cost against an
existing context even when no policy is given. -/
theorem policy_checks_permissive (e : PolicyEnforcer) (ctxId pname : String)
    (policyName : Option String) (cost now : ℚ) :
    (e.check_before_capability_call ctxId none = .ok ()) ∧
      (e.check_timeout ctxId none now = .ok ()) ∧
      ((e.check_cost ctxId none cost).2 = .ok ()) ∧
      (assocGet e.policies pname = none →
        e.check_before_capability_call ctxId (some pname) = .ok () ∧
          e.check_timeout ctxId (some pname) now = .ok () ∧
          (e.check_cost ctxId (some pname) cost).2 = .ok ()) ∧
      (assocGet e.contexts ctxId = none →
        e.check_before_capability_call ctxId policyName = .ok () ∧
          (e.check_cost ctxId policyName cost).2 = .ok () ∧
          e.check_timeout ctxId policyName now = .ok ()) ∧
      (∀ ctx, assocGet e.contexts ctxId = some ctx →
        (e.check_cost ctxId none cost).1.get_context ctxId =
          some { ctx with total_cost_usd := ctx.total_cost_usd + cost }) := by
  refine ⟨?_, ?_, ?_, ?_, ?_, ?_⟩
  · unfold PolicyEnforcer.check_before_capability_call
    cases assocGet e.contexts ctxId <;> rfl
  · unfold PolicyEnforcer.check_timeout
    cases assocGet e.contexts ctxId <;> rfl
  · unfold PolicyEnforcer.check_cost
    cases assocGet e.contexts ctxId <;> rfl
  · intro h
    unfold PolicyEnforcer.check_before_capability_call
      PolicyEnforcer.check_timeout PolicyEnforcer.check_cost
    cases assocGet e.contexts ctxId <;> simp [h]
  · intro h
    unfold PolicyEnforcer.check_before_capability_call
      PolicyEnforcer.check_timeout PolicyEnforcer.check_cost
    rw [h]
    exact ⟨rfl, rfl, rfl⟩
  · intro ctx h
    unfold PolicyEnforcer.check_cost PolicyEnforcer.get_context
    rw [h]
    simp [assocGet_assocSet]

/-- Concrete instantiation of `policy_checks_permissive`: a context with
no policy, an unknown policy name, and a missing context are each
permitted, and the cost is still recorded. -/
theorem policy_checks_permissive_witness :
    ((singleBudgetEnforcer 10 1 0 0).check_before_capability_call
        "ctx" none = .ok ()) ∧
      ((singleBudgetEnforcer 10 1 0 0).check_before_capability_call
        "ctx" (some "nonexistent") = .ok ()) ∧
      ((singleBudgetEnforcer 10 1 0 0).check_timeout
        "missing" (some "p") 1000 = .ok ()) ∧
      ((singleBudgetEnforcer 10 1 0 0).check_cost "ctx" none
          100).1.get_context "ctx" = some ⟨0, 0 + 100, 0⟩ :=
  ⟨(policy_checks_permissive (singleBudgetEnforcer 10 1 0 0) "ctx"
      "nonexistent" none 100 1000).1,
    ((policy_checks_permissive (singleBudgetEnforcer 10 1 0 0) "ctx"
      "nonexistent" none 100 1000).2.2.2.1 (by decide)).1,
    ((policy_checks_permissive (singleBudgetEnforcer 10 1 0 0) "missing"
      "nonexistent" (some "p") 100 1000).2.2.2.2.1 (by decide)).2.2,
    (policy_checks_permissive (singleBudgetEnforcer 10 1 0 0) "ctx"
      "nonexistent" none 100 1000).2.2.2.2.2 ⟨0, 0, 0⟩ (by decide)⟩

/-! ### Multi-file merge

Modelled from the spec: `merge_agentform_files` (the compiler's AST
module is absent from the source tree; only its tests remain).  Per the
spec, merging requires exactly one metadata block across the whole set
and no duplicate names inside any block kind; blocks are represented here
by their declared names, which is all that duplicate detection reads. -/

/-- The project metadata block (`agentform { version project }`). -/
structure AgentformMeta where
  version : String
  project : String
deriving DecidableEq

/-- One parsed source file: an optional metadata block and the declared
names of each block kind, in declaration order. -/
structure AgentformFile where
  agentform : Option AgentformMeta := none
  vars : List String := []
  providers : List String := []
  models : List String := []
  agents : List String := []
  policies : List String := []
  servers : List String := []
  capabilities : List String := []
  workflows : List String := []
deriving DecidableEq

/-- The block kinds subject to duplicate detection. -/
inductive BlockKind where
  | var | provider | model | agent | policy | server | capability | workflow
deriving DecidableEq, Fintype

/-- The kind name used in diagnostics. -/
def BlockKind.label : BlockKind → String
  | .var => "variable"
  | .provider => "provider"
  | .model => "model"
  | .agent => "agent"
  | .policy => "policy"
  | .server => "server"
  | .capability => "capability"
  | .workflow => "workflow"

/-- The names a file declares for a block kind (providers by full name). -/
def AgentformFile.names (f : AgentformFile) : BlockKind → List String
  | .var => f.vars
  | .provider => f.providers
  | .model => f.models
  | .agent => f.agents
  | .policy => f.policies
  | .server => f.servers
  | .capability => f.capabilities
  | .workflow => f.workflows

/-- All names of a block kind across the file set, in file order. -/
def allNames (fs : List AgentformFile) (k : BlockKind) : List String :=
  (fs.map (fun f => f.names k)).flatten

/-- A fatal merge conflict. -/
structure MergeError where
  message : String
deriving DecidableEq

/-- The merged project: the single metadata block plus the concatenated
declarations of every kind. -/
structure MergedProject where
  agentform : AgentformMeta
  vars : List String
  providers : List String
  models : List String
  agents : List String
  policies : List String
  servers : List String
  capabilities : List String
  workflows : List String

/-- Left-to-right duplicate scan carrying the names already seen. -/
def firstDupAux (seen : List String) : List String → Option String
  | [] => none
  | x :: xs => if x ∈ seen then some x else firstDupAux (x :: seen) xs

/-- The first name repeating an earlier one, if any. -/
def firstDup (names : List String) : Option String :=
  firstDupAux [] names

/-- The duplicate diagnostic: `Duplicate <kind> '<name>'`. -/
def dupMsg (kind name : String) : String :=
  "Duplicate " ++ kind ++ " " ++ squote ++ name ++ squote

/-- Message when no file carries the metadata block. -/
def noMetaMsg : String :=
  "No " ++ squote ++ "agentform" ++ squote ++ " metadata block found"

/-- Message when several files carry a metadata block. -/
def multiMetaMsg : String :=
  "Multiple " ++ squote ++ "agentform" ++ squote ++ " blocks found"

/-- Message for an empty merge set. -/
def emptyMergeMsg : String := "No Agentform files to merge"

/-- The order in which duplicate detection visits the block kinds. -/
def kindOrder : List BlockKind :=
  [.var, .provider, .model, .agent, .policy, .server, .capability, .workflow]

/-- Duplicate detection over the given kinds, in order. -/
def checkKinds (fs : List AgentformFile) : List BlockKind → Except MergeError Unit
  | [] => .ok ()
  | k :: rest =>
    match firstDup (allNames fs k) with
    | some n => .error ⟨dupMsg k.label n⟩
    | none => checkKinds fs rest

/-- Modelled from the spec: `merge_agentform_files` — an empty set is an
error; exactly one metadata block is required across the set (zero or
more than one is an error); duplicate names within any block kind are an
error naming the kind and the name; otherwise the declarations are
concatenated under the single metadata block. -/
def merge_agentform_files (fs : List AgentformFile) : Except MergeError MergedProject :=
  match fs with
  | [] => .error ⟨emptyMergeMsg⟩
  | _ :: _ =>
    match fs.filterMap AgentformFile.agentform with
    | [] => .error ⟨noMetaMsg⟩
    | [m] =>
      match checkKinds fs kindOrder with
      | .error e => .error e
      | .ok () =>
        .ok { agentform := m
              vars := allNames fs .var
              providers := allNames fs .provider
              models := allNames fs .model
              agents := allNames fs .agent
              policies := allNames fs .policy
              servers := allNames fs .server
              capabilities := allNames fs .capability
              workflows := allNames fs .workflow }
    | _ :: _ :: _ => .error ⟨multiMetaMsg⟩

theorem firstDupAux_eq_none (names : List String) :
    ∀ seen, firstDupAux seen names = none ↔
      names.Nodup ∧ ∀ x ∈ names, x ∉ seen := by
  induction names with
  | nil =>
    intro seen
    simp [firstDupAux]
  | cons x xs ih =>
    intro seen
    unfold firstDupAux
    by_cases hx : x ∈ seen
    · simp only [if_pos hx]
      constructor
      · intro h
        exact absurd h (by simp)
      · rintro ⟨-, hall⟩
        exact absurd hx (hall x (List.mem_cons_self x xs))
    · simp only [if_neg hx]
      rw [ih (x :: seen)]
      constructor
      · rintro ⟨hnd, hall⟩
        refine ⟨List.nodup_cons.mpr ⟨?_, hnd⟩, ?_⟩
        · intro hmem
          exact hall x hmem (List.mem_cons_self x seen)
        · intro y hy
          rcases List.mem_cons.mp hy with rfl | hy'
          · exact hx
          · exact fun hc => hall y hy' (List.mem_cons_of_mem _ hc)
      · rintro ⟨hnd, hall⟩
        obtain ⟨hxxs, hnd'⟩ := List.nodup_cons.mp hnd
        refine ⟨hnd', ?_⟩
        intro y hy hyc
        rcases List.mem_cons.mp hyc with rfl | hy2
        · exact hxxs hy
        · exact hall y (List.mem_cons_of_mem _ hy) hy2

theorem firstDup_eq_none_iff (names : List String) :
    firstDup names = none ↔ names.Nodup := by
  rw [firstDup, firstDupAux_eq_none]
  simp

theorem firstDupAux_unique_dup (n : String) (names : List String) :
    ∀ seen, seen.Nodup →
      2 ≤ seen.count n + names.count n →
      (∀ m, m ≠ n → seen.count m + names.count m ≤ 1) →
      firstDupAux seen names = some n := by
  induction names with
  | nil =>
    intro seen hnd h2 _
    have := List.nodup_iff_count_le_one.mp hnd n
    simp [List.count_nil] at h2
    omega
  | cons x xs ih =>
    intro seen hnd h2 h1
    unfold firstDupAux
    by_cases hx : x ∈ seen
    · rw [if_pos hx]
      by_cases hxn : x = n
      · rw [hxn]
      · exfalso
        have hb := h1 x hxn
        have hs : 1 ≤ seen.count x := List.count_pos_iff.mpr hx
        have hc : 1 ≤ (x :: xs).count x := by
          simp [List.count_cons_self]
        omega
    · rw [if_neg hx]
      refine ih (x :: seen) (List.nodup_cons.mpr ⟨hx, hnd⟩) ?_ ?_
      · simp only [List.count_cons] at h2 ⊢
        split_ifs at h2 ⊢ <;> omega
      · intro m hm
        have hcm := h1 m hm
        simp only [List.count_cons] at hcm ⊢
        split_ifs at hcm ⊢ <;> omega

theorem firstDup_unique_dup (names : List String) (n : String)
    (h2 : 2 ≤ names.count n)
    (h1 : ∀ m ∈ names, m ≠ n → names.count m ≤ 1) :
    firstDup names = some n := by
  refine firstDupAux_unique_dup n names [] List.nodup_nil (by simpa) ?_
  intro m hm
  simp only [List.count_nil, Nat.zero_add]
  by_cases hmem : m ∈ names
  · exact h1 m hmem hm
  · simp [List.count_eq_zero_of_not_mem hmem]

theorem checkKinds_ok (fs : List AgentformFile) (ks : List BlockKind)
    (h : ∀ k ∈ ks, (allNames fs k).Nodup) :
    checkKinds fs ks = .ok () := by
  induction ks with
  | nil => rfl
  | cons k rest ih =>
    unfold checkKinds
    rw [(firstDup_eq_none_iff _).mpr (h k (List.mem_cons_self k rest))]
    exact ih fun k' hk' => h k' (List.mem_cons_of_mem _ hk')

theorem checkKinds_error (fs : List AgentformFile) (ks : List BlockKind)
    (k : BlockKind) (n : String) (hmem : k ∈ ks)
    (hothers : ∀ k' ∈ ks, k' ≠ k → (allNames fs k').Nodup)
    (hdup : firstDup (allNames fs k) = some n) :
    checkKinds fs ks = .error ⟨dupMsg k.label n⟩ := by
  induction ks with
  | nil => cases hmem
  | cons k0 rest ih =>
    unfold checkKinds
    by_cases hk0 : k0 = k
    · subst hk0
      rw [hdup]
    · rw [(firstDup_eq_none_iff _).mpr
        (hothers k0 (List.mem_cons_self k0 rest) hk0)]
      refine ih ?_ fun k' hk' hne => hothers k' (List.mem_cons_of_mem _ hk') hne
      rcases List.mem_cons.mp hmem with rfl | h
      · exact absurd rfl hk0
      · exact h

/-- C5: with exactly one metadata block in the set, if a name is declared
at least twice within one block kind (and that is the only duplication),
merging fails with a `MergeError` whose message contains
`Duplicate <kind> '<name>'`. -/
theorem merge_duplicate_detection (fs : List AgentformFile)
    (m : AgentformMeta) (k : BlockKind) (n : String)
    (hmeta : fs.filterMap AgentformFile.agentform = [m])
    (hcount : 2 ≤ (allNames fs k).count n)
    (huniq : ∀ x ∈ allNames fs k, x ≠ n → (allNames fs k).count x ≤ 1)
    (hothers : ∀ k', k' ≠ k → (allNames fs k').Nodup) :
    ∃ e, merge_agentform_files fs = .error e ∧
      List.IsInfix (dupMsg k.label n).data e.message.data := by
  refine ⟨⟨dupMsg k.label n⟩, ?_, List.infix_rfl⟩
  cases fs with
  | nil => simp at hmeta
  | cons f fs' =>
    unfold merge_agentform_files
    rw [hmeta, checkKinds_error (f :: fs') kindOrder k n ?_
      (fun k' _ hne => hothers k' hne)
      (firstDup_unique_dup _ n hcount huniq)]
    cases k <;> simp [kindOrder]

/-- Concrete instantiation of `merge_duplicate_detection`: two files both
declaring `variable "api_key"` fail to merge with the duplicate-variable
message. -/
theorem merge_duplicate_detection_witness :
    ∃ e, merge_agentform_files
        [{ agentform := some ⟨"0.1", "test"⟩, vars := ["api_key"] },
          { vars := ["api_key"] }] = .error e ∧
      List.IsInfix (dupMsg "variable" "api_key").data e.message.data :=
  merge_duplicate_detection
    [{ agentform := some ⟨"0.1", "test"⟩, vars := ["api_key"] },
      { vars := ["api_key"] }]
    ⟨"0.1", "test"⟩ .var "api_key" (by decide) (by decide) (by decide)
    (by decide)

/-- C6: merging requires exactly one metadata block across the set —
zero metadata blocks (in a nonempty set) fail with the no-metadata
message, two or more fail with the multiple-metadata message, and with
exactly one (and no duplicate names) the merge succeeds carrying that
block's version and project name. -/
theorem merge_metadata_requirement (fs : List AgentformFile)
    (m m2 : AgentformMeta) :
    (fs ≠ [] → fs.filterMap AgentformFile.agentform = [] →
      merge_agentform_files fs = .error ⟨noMetaMsg⟩) ∧
      (∀ rest, fs.filterMap AgentformFile.agentform = m :: m2 :: rest →
        merge_agentform_files fs = .error ⟨multiMetaMsg⟩) ∧
      (fs.filterMap AgentformFile.agentform = [m] →
        (∀ k, (allNames fs k).Nodup) →
        ∃ res, merge_agentform_files fs = .ok res ∧
          res.agentform.version = m.version ∧
          res.agentform.project = m.project) := by
  refine ⟨?_, ?_, ?_⟩
  · intro hne hmeta
    cases fs with
    | nil => exact absurd rfl hne
    | cons f fs' =>
      unfold merge_agentform_files
      rw [hmeta]
  · intro rest hmeta
    cases fs with
    | nil => simp at hmeta
    | cons f fs' =>
      unfold merge_agentform_files
      rw [hmeta]
  · intro hmeta hnd
    cases fs with
    | nil => simp at hmeta
    | cons f fs' =>
      refine ⟨{ agentform := m
                vars := allNames (f :: fs') .var
                providers := allNames (f :: fs') .provider
                models := allNames (f :: fs') .model
                agents := allNames (f :: fs') .agent
                policies := allNames (f :: fs') .policy
                servers := allNames (f :: fs') .server
                capabilities := allNames (f :: fs') .capability
                workflows := allNames (f :: fs') .workflow }, ?_, rfl, rfl⟩
      unfold merge_agentform_files
      rw [hmeta, checkKinds_ok (f :: fs') kindOrder fun k _ => hnd k]

/-- Concrete instantiation of `merge_metadata_requirement`: a set with no
metadata block errors, a set with two errors, and a set with exactly one
merges carrying its version and project. -/
theorem merge_metadata_requirement_witness :
    (merge_agentform_files [{ vars := ["v"] }] = .error ⟨noMetaMsg⟩) ∧
      (merge_agentform_files
        [{ agentform := some ⟨"0.1", "a"⟩ }, { agentform := some ⟨"0.1", "b"⟩ }]
          = .error ⟨multiMetaMsg⟩) ∧
      (∃ res, merge_agentform_files
          [{ agentform := some ⟨"0.1", "test"⟩, vars := ["v"] }]
            = .ok res ∧
        res.agentform.version = "0.1" ∧ res.agentform.project = "test") :=
  ⟨(merge_metadata_requirement [{ vars := ["v"] }] ⟨"0.1", "a"⟩
      ⟨"0.1", "b"⟩).1 (by decide) (by decide),
    (merge_metadata_requirement
      [{ agentform := some ⟨"0.1", "a"⟩ }, { agentform := some ⟨"0.1", "b"⟩ }]
      ⟨"0.1", "a"⟩ ⟨"0.1", "b"⟩).2.1 [] (by decide),
    (merge_metadata_requirement
      [{ agentform := some ⟨"0.1", "test"⟩, vars := ["v"] }]
      ⟨"0.1", "test"⟩ ⟨"0.1", "test"⟩).2.2 (by decide) (by decide)⟩

/-! ### Provider validation

Modelled from the spec: the validator module is absent from the source
tree (only its tests remain).  Per the spec, a provider must declare an
`api_key` attribute whose value is a variable reference; a hardcoded
literal is rejected with "must be a variable reference". -/

/-- Attribute values as the validator distinguishes them: literals,
`var.NAME` references, and dotted symbol references. -/
inductive AttrValue where
  | lit (v : Value)
  | varRef (name : String)
  | ref (parts : List String)

/-- A provider block: composite type key, instance name, attributes. -/
structure ProviderBlock where
  typeKey : String
  name : String
  attrs : List (String × AttrValue)

/-- The diagnostic path of a provider's `api_key` attribute. -/
def providerKeyPath (p : ProviderBlock) : String :=
  "provider." ++ p.typeKey ++ "." ++ p.name ++ ".api_key"

/-- Modelled from the spec: the provider rule of the validator — the
`api_key` attribute must exist and must be a `VarRef`; a missing
attribute errors at the `api_key` path, and any non-reference value
(such as a hardcoded literal) errors with "must be a variable
reference". -/
def validateProvider (p : ProviderBlock) : List ValidationError :=
  match assocGet p.attrs "api_key" with
  | none => [⟨providerKeyPath p, "Missing required attribute api_key"⟩]
  | some (.varRef _) => []
  | some _ => [⟨providerKeyPath p, "api_key must be a variable reference"⟩]

/-- Validation of the provider blocks of a spec: the per-provider errors
concatenated into a `ValidationResult`. -/
def validate_providers (ps : List ProviderBlock) : ValidationResult :=
  { errors := (ps.map validateProvider).flatten, warnings := [] }

theorem isInfix_append_left {α : Type} (pre l : List α) :
    List.IsInfix l (pre ++ l) := ⟨pre, [], by simp⟩

/-- C7: a provider whose `api_key` attribute is missing fails validation
with an error whose path mentions `api_key`; a provider whose `api_key`
is a hardcoded literal fails validation with an error whose message
contains "variable reference"; a provider whose `api_key` is a variable
reference produces no provider error. -/
theorem provider_api_key_validation (p : ProviderBlock) :
    (assocGet p.attrs "api_key" = none →
      (validate_providers [p]).is_valid = false ∧
        ∃ e ∈ (validate_providers [p]).errors,
          List.IsInfix "api_key".data e.path.data) ∧
      (∀ v, assocGet p.attrs "api_key" = some (.lit v) →
        (validate_providers [p]).is_valid = false ∧
          ∃ e ∈ (validate_providers [p]).errors,
            List.IsInfix "variable reference".data e.message.data) ∧
      (∀ x, assocGet p.attrs "api_key" = some (.varRef x) →
        validateProvider p = [] ∧ (validate_providers [p]).is_valid = true) := by
  have hpath : List.IsInfix "api_key".data (providerKeyPath p).data := by
    have : (providerKeyPath p).data =
        ("provider." ++ p.typeKey ++ "." ++ p.name ++ ".").data ++ "api_key".data := by
      simp [providerKeyPath]
    rw [this]
    exact isInfix_append_left _ _
  refine ⟨?_, ?_, ?_⟩
  · intro h
    refine ⟨?_, ⟨providerKeyPath p, "Missing required attribute api_key"⟩, ?_, hpath⟩
    · simp [validate_providers, ValidationResult.is_valid, validateProvider, h]
    · simp [validate_providers, validateProvider, h]
  · intro v h
    refine ⟨?_, ⟨providerKeyPath p, "api_key must be a variable reference"⟩, ?_, ?_⟩
    · simp [validate_providers, ValidationResult.is_valid, validateProvider, h]
    · simp [validate_providers, validateProvider, h]
    · show List.IsInfix "variable reference".data
        "api_key must be a variable reference".data
      decide
  · intro x h
    constructor
    · simp [validateProvider, h]
    · simp [validate_providers, ValidationResult.is_valid, validateProvider, h]

/-- Concrete instantiation of `provider_api_key_validation`: a provider
with no `api_key`, one with the hardcoded literal `"hardcoded-key"`, and
one using `var.api_key`. -/
theorem provider_api_key_validation_witness :
    ((validate_providers [⟨"llm.openai", "default", []⟩]).is_valid = false ∧
      ∃ e ∈ (validate_providers [⟨"llm.openai", "default", []⟩]).errors,
        List.IsInfix "api_key".data e.path.data) ∧
      ((validate_providers
          [⟨"llm.openai", "default",
            [("api_key", .lit (.str "hardcoded-key"))]⟩]).is_valid = false ∧
        ∃ e ∈ (validate_providers
          [⟨"llm.openai", "default",
            [("api_key", .lit (.str "hardcoded-key"))]⟩]).errors,
          List.IsInfix "variable reference".data e.message.data) ∧
      validateProvider
        ⟨"llm.openai", "default", [("api_key", .varRef "api_key")]⟩ = [] :=
  ⟨(provider_api_key_validation ⟨"llm.openai", "default", []⟩).1 rfl,
    (provider_api_key_validation
      ⟨"llm.openai", "default", [("api_key", .lit (.str "hardcoded-key"))]⟩).2.1
      (.str "hardcoded-key") rfl,
    ((provider_api_key_validation
      ⟨"llm.openai", "default", [("api_key", .varRef "api_key")]⟩).2.2
      "api_key" rfl).1⟩

end Acp
